import Mathlib

/-!
# Lines mark (bqplot/nbextension/Lines.js)

A shallow embedding of the selection and visibility logic of the `Lines`
mark view: `invert_point`, `invert_range`, `update_multi_range`,
`legend_click`, `update_curves_subset`, the display stage of `draw`,
`update_idx_selected_in_lasso` and `get_line_style`.

Conventions of the embedding.

* JavaScript numbers that carry data or pixel coordinates are rationals
  (`ℚ`); numbers that are array positions are integers (`Int`), so that
  `data.length - 1` may be `-1` and `Math.max(.., 0)` is not vacuous.
* Scale objects, the date formatter and the point-in-polygon test belong to
  other modules; the functions below take them as parameters.
* The model attributes read or written by the view are the fields of
  `Model`; `this.touch()` is recorded by a counter.
-/

namespace Lines

/-! ## Data model -/

/-- One element of a curve's `values`: `{x, y}` where `y` may be `null`. -/
structure Point where
  x : ℚ
  y : Option ℚ
deriving DecidableEq

/-- One element of `model.mark_data`: `{name, values, opacity}`; `opacity` is
`none` while the property has never been assigned. -/
structure Curve where
  name : String
  values : List Point
  opacity : Option ℚ
deriving DecidableEq

/-- One element of the array stored in the `idx_selected` attribute: a
plain index (written by `invert_point` / `invert_range`) or a lasso entry
`{line_name, lasso_name, indices}`. -/
inductive SelElem where
  | idx (i : Int)
  | entry (line_name : String) (lasso_name : String) (indices : List Nat)
deriving DecidableEq

/-- The `lasso_name` property of an element of `idx_selected`; `none` stands
for `undefined` (the element is a number). -/
def SelElem.lasso_name : SelElem → Option String
  | SelElem.idx _ => none
  | SelElem.entry _ l _ => some l

/-- The attribute `model.x_data`: a flat array of x values, or an array of
such arrays (one per curve). -/
inductive XData where
  | flat (xs : List ℚ)
  | nested (xss : List (List ℚ))
deriving DecidableEq

/-- The attributes of the mark's model used by the view. `idx_selected` is
`none` when the attribute is `null`. -/
structure Model where
  x_data : XData
  mark_data : List Curve
  idx_selected : Option (List SelElem)
  curves_subset : List Nat
  labels_visibility : String
  touches : Nat
deriving DecidableEq

/-- The expression
`this.model.x_data[0] instanceof Array ? this.model.x_data[0] : this.model.x_data`. -/
def XData.data : XData → List ℚ
  | XData.flat xs => xs
  | XData.nested [] => []
  | XData.nested (xs :: _) => xs

/-! ## The inherited `bisect` -/

/-- Modelled from the spec: the loop of the binary search behind the
inherited `bisect`: while `lo < hi`, probe the midpoint and move `lo` past it
when the probed element is smaller than `x`, otherwise move `hi` onto it.
`fuel` bounds the number of iterations. -/
def bisectLoop (data : List ℚ) (x : ℚ) : Nat → Nat → Nat → Nat
  | 0, lo, _ => lo
  | fuel + 1, lo, hi =>
    if lo < hi then
      let mid := (lo + hi) / 2
      match data[mid]? with
      | some d => if d < x then bisectLoop data x fuel (mid + 1) hi
                  else bisectLoop data x fuel lo mid
      | none => bisectLoop data x fuel lo mid
    else lo

/-- Modelled from the spec: the view's inherited `bisect` (defined in the
base `Mark` view, outside `Lines.js`). The spec
describes it as a binary search that "finds the insertion index of that data
value in the curve's (ascending) x-coordinate sequence"; Scenario B
(`x = [0,1,2,3,4]`, value `2`, index `2`) fixes the leftmost insertion
index. The search runs on `[0, data.length)`. -/
def bisect (data : List ℚ) (x : ℚ) : Int :=
  (bisectLoop data x data.length 0 data.length : Nat)

/-! ## Point and range inversion -/

/-- The method `invert_point(pixel)`: returns the index and the model after
`model.set("idx_selected", [index])` and `touch()`. `invert` is
`x_scale.scale.invert`, `bisect` is `this.bisect`. -/
def invert_point (invert : ℚ → ℚ) (bisect : List ℚ → ℚ → Int) (m : Model)
    (pixel : ℚ) : Int × Model :=
  let data_point := invert pixel
  let data := m.x_data.data
  let index := min (bisect data data_point) (max ((data.length : Int) - 1) 0)
  (index, { m with idx_selected := some [SelElem.idx index], touches := m.touches + 1 })

/-- The method `invert_range(start_pxl, end_pxl)`: returns `indices` and the model after
`model.set("idx_selected", indices)` and `touch()`. -/
def invert_range (invert : ℚ → ℚ) (bisect : List ℚ → ℚ → Int) (m : Model)
    (start_pxl end_pxl : ℚ) : List Int × Model :=
  let start := invert start_pxl
  let end_ := invert end_pxl
  let data := m.x_data.data
  let indices := [start, end_].map fun elem =>
    min (bisect data elem) (max ((data.length : Int) - 1) 0)
  (indices, { m with idx_selected := some (indices.map SelElem.idx), touches := m.touches + 1 })

/-- Modelled from the spec: the inverse transform of a linear x scale (scale
objects are collaborators outside this file), as used by Scenario B: the
inverse of the affine map that sends the domain `[d0, d1]` onto the pixel
range `[r0, r1]`. -/
def linear_invert (d0 d1 r0 r1 : ℚ) (p : ℚ) : ℚ :=
  d0 + (p - r0) / (r1 - r0) * (d1 - d0)

/-! ## Brush-linked selector -/

/-- A value stored in the external selector's state: a number or a string. -/
inductive SelVal where
  | num (q : ℚ)
  | str (s : String)
deriving DecidableEq

/-- The state of the external selector (`this.selector_model` together with
the `touch()` calls made on `this.selector`). -/
structure Selector where
  idx_selected : List SelVal
  touches : Nat
deriving DecidableEq

/-- The method `update_multi_range(brush_extent)`. `scale_type` is `x_scale.model.type`,
`format_date` is `x_scale.format_date`. The two reassigned locals `x_start`
and `x_end` are computed as in the source and are not read afterwards. -/
def update_multi_range (scale_type : String) (format_date : ℚ → String)
    (bisect : List ℚ → ℚ → Int) (m : Model) (sel : Selector)
    (brush_extent : ℚ × ℚ) : Selector :=
  let x_start := brush_extent.1
  let x_end := brush_extent.2
  let data := m.x_data.data
  let idx_start := bisect data x_start
  let idx_end := min (bisect data x_end) (max ((data.length : Int) - 1) 0)
  let _x_start : SelVal :=
    if scale_type = "date" then SelVal.str (format_date x_start) else SelVal.num x_start
  let _x_end : SelVal :=
    if scale_type = "date" then SelVal.str (format_date x_end) else SelVal.num x_end
  { sel with idx_selected := [SelVal.num idx_start, SelVal.num idx_end],
             touches := sel.touches + 1 }

/-! ## Legend click -/

/-- An `id` attribute of the two shapes `legend_click` selects by:
`"legend" + n` or `"curve" + n`. -/
inductive Sel where
  | legend (n : Nat)
  | curve (n : Nat)
deriving DecidableEq

/-- An element of the view as `legend_click` sees it: its `id` attribute
(`none` when the element has no id of the two shapes) and its `opacity`
style (`none` while the style is not set). -/
structure Elem where
  id : Option Sel
  opacity : Option ℚ
deriving DecidableEq

/-- The elements `legend_click` may reach: the path of each `.curve` group
and the legend rows built by `draw_legend`, each in document order. The
legend rows are appended to the container handed to `draw_legend`; they are
searched after the paths, so that the result does not depend on whether that
container lies below `this.el`. -/
structure View where
  paths : List Elem
  legend : List Elem
deriving DecidableEq

/-- The paths as `draw` leaves them: the path of curve `i` gets the id
`"curve" + (i + 1)` (line 359), and `draw` sets no opacity. -/
def drawn_paths (mark_data : List Curve) : List Elem :=
  mark_data.enum.map fun (i, _) => { id := some (Sel.curve (i + 1)), opacity := none }

/-- The legend rows as `draw_legend` leaves them: one row per curve, with the
class `"legend" + uuid` and neither an `id` attribute nor an opacity
(lines 227-251). -/
def drawn_legend (mark_data : List Curve) : List Elem :=
  mark_data.map fun _ => { id := none, opacity := none }

/-- The opacity style written on the first element of `els` whose id is
`sel`; `els` is returned as it is when no element has that id. -/
def style_first : List Elem → Sel → ℚ → List Elem
  | [], _, _ => []
  | e :: es, sel, v =>
    if e.id = some sel then { e with opacity := some v } :: es
    else e :: style_first es sel v

/-- The call `this.el.select("#" + id).style("opacity", v)`: `select` takes
the first element with that id, and on an empty selection `style` changes
nothing. -/
def View.style (w : View) (sel : Sel) (v : ℚ) : View :=
  if w.paths.any (fun e => e.id = some sel) then { w with paths := style_first w.paths sel v }
  else { w with legend := style_first w.legend sel v }

/-- The method `legend_click(index)`: the curve collection after the assignment to
`mark_data[index].opacity`, and the view after the two `style` calls.
`none` when `mark_data[index]` is undefined (the property access throws). -/
def legend_click (mark_data : List Curve) (w : View) (index : Nat) :
    Option (List Curve × View) :=
  match mark_data[index]? with
  | none => none
  | some c =>
    let opacity : ℚ := if c.opacity = some 1 then 1 / 10 else 1
    let mark_data1 := mark_data.set index { c with opacity := some opacity }
    let w1 := w.style (Sel.legend (index + 1)) (opacity + 4 / 10)
    let w2 := w1.style (Sel.curve (index + 1)) opacity
    some (mark_data1, w2)

/-! ## Curve visibility -/

/-- One `.curve` group of the view: the name of its bound datum, the
`display` attribute of its path (`none` while the attribute is not set) and
the `display` attribute of its `.curve_label` child (`none` while the group
has no such child). -/
structure CurveEl where
  name : String
  path_display : Option String
  label_display : Option String
deriving DecidableEq

/-- The display a path is rendered with: the attribute when set, the
default `"inline"` otherwise. -/
def CurveEl.shown (e : CurveEl) : String :=
  e.path_display.getD "inline"

/-- The method `update_curves_subset()` on the `.curve` groups `els` (in document
order, the index `i` of the attribute callbacks). -/
def update_curves_subset (m : Model) (els : List CurveEl) : List CurveEl :=
  let curves_subset := m.curves_subset
  if curves_subset.length > 1 then
    els.enum.map fun (i, e) =>
      { e with
        path_display := some (if i ∈ curves_subset then "inline" else "none"),
        label_display := e.label_display.map fun _ =>
          if i ∈ curves_subset ∧ m.labels_visibility = "label" then "inline" else "none" }
  else
    els.map fun e =>
      { e with
        path_display := some "inline",
        label_display := e.label_display.map fun _ =>
          if m.labels_visibility = "label" then "inline" else "none" }

/-- The data join of `draw` keyed by curve name: the groups already in the
view stay (groups without a datum are removed only when their exit
transition ends, after the call), and one group with a fresh path and no
label is appended for every curve name that has no group yet. -/
def join (mark_data : List Curve) (els : List CurveEl) : List CurveEl :=
  let missing := (mark_data.map Curve.name).filter fun n => n ∉ els.map CurveEl.name
  els ++ missing.eraseDups.map fun n => { name := n, path_display := none, label_display := none }

/-- The method `create_labels()`: every group's label is removed and a new one is
appended, with its `display` set from `labels_visibility`. -/
def create_labels (m : Model) (els : List CurveEl) : List CurveEl :=
  els.map fun e =>
    { e with label_display := some (if m.labels_visibility ≠ "label" then "none" else "inline") }

/-- The method `draw()`, as far as the `display` attributes go: the data join, the
label display, the visibility subset and `create_labels`. The stroke, fill
and geometry attributes set in between do not touch `display`. -/
def draw (m : Model) (els : List CurveEl) : List CurveEl :=
  let curves := join m.mark_data els
  let curves1 := curves.map fun e =>
    { e with label_display := e.label_display.map fun _ =>
        if m.labels_visibility = "label" then "inline" else "none" }
  let curves_subset := m.curves_subset
  let curves2 :=
    if curves_subset.length > 0 then
      curves1.enum.map fun (i, e) =>
        { e with
          path_display := some (if i ∈ curves_subset then "inline" else "none"),
          label_display := e.label_display.map fun _ =>
            if i ∈ curves_subset ∧ m.labels_visibility = "label" then "inline" else "none" }
    else curves1
  create_labels m curves2

/-! ## Lasso selection -/

/-- The body of the `_.each` callback of `update_idx_selected_in_lasso` for
one curve: `acc` is the pair of the locals `idx_selected` and
`data_in_lasso`. -/
def lasso_step (x_scale : ℚ → ℚ) (y_scale : Option ℚ → ℚ) (lasso_name : String)
    (lasso_vertices : List (ℚ × ℚ))
    (point_in_lasso_func : ℚ × ℚ → List (ℚ × ℚ) → Bool)
    (acc : List SelElem × Bool) (line_data : Curve) : List SelElem × Bool :=
  let line_name := line_data.name
  let data := line_data.values
  let indices := List.range data.length
  let idx_in_lasso := indices.filter fun index =>
    match data[index]? with
    | some elem => point_in_lasso_func (x_scale elem.x, y_scale elem.y) lasso_vertices
    | none => false
  if idx_in_lasso.length > 0 then
    (acc.1 ++ [SelElem.entry line_name lasso_name idx_in_lasso], true)
  else acc

/-- The method `update_idx_selected_in_lasso(lasso_name, lasso_vertices,
point_in_lasso_func)`: the returned `data_in_lasso` and the model after
`model.set("idx_selected", ..)` and `touch()`. `lasso_vertices` is `none`
for `null`; `utils.deepCopy` returns an equal value. -/
def update_idx_selected_in_lasso (x_scale : ℚ → ℚ) (y_scale : Option ℚ → ℚ) (m : Model)
    (lasso_name : String) (lasso_vertices : Option (List (ℚ × ℚ)))
    (point_in_lasso_func : ℚ × ℚ → List (ℚ × ℚ) → Bool) : Bool × Model :=
  let idx := m.idx_selected
  let idx_selected : List SelElem :=
    match idx with
    | some a => a
    | none => []
  let data_in_lasso := false
  let removal : Bool × Model :=
    (data_in_lasso,
     { m with
       idx_selected := some (idx_selected.filter fun lasso =>
         lasso.lasso_name ≠ some lasso_name),
       touches := m.touches + 1 })
  match lasso_vertices with
  | none => removal
  | some vs =>
    if vs.length > 0 then
      let r := m.mark_data.foldl
        (lasso_step x_scale y_scale lasso_name vs point_in_lasso_func)
        (idx_selected, data_in_lasso)
      (r.2, { m with idx_selected := some r.1, touches := m.touches + 1 })
    else removal

/-- The test made for one data point by `update_idx_selected_in_lasso`: the
point's projected pixel position `(x_scale(x), y_scale(y))` satisfies the
supplied point-in-polygon test. -/
def in_lasso (x_scale : ℚ → ℚ) (y_scale : Option ℚ → ℚ) (lasso_vertices : List (ℚ × ℚ))
    (point_in_lasso_func : ℚ × ℚ → List (ℚ × ℚ) → Bool) (elem : Point) : Bool :=
  point_in_lasso_func (x_scale elem.x, y_scale elem.y) lasso_vertices

/-- The positions of a curve's points that satisfy the test, in ascending
order (the local `idx_in_lasso`). -/
def idx_in_lasso (x_scale : ℚ → ℚ) (y_scale : Option ℚ → ℚ) (lasso_vertices : List (ℚ × ℚ))
    (point_in_lasso_func : ℚ × ℚ → List (ℚ × ℚ) → Bool) (line_data : Curve) : List Nat :=
  (List.range line_data.values.length).filter fun index =>
    match line_data.values[index]? with
    | some elem => point_in_lasso_func (x_scale elem.x, y_scale elem.y) lasso_vertices
    | none => false

/-! ## Line style -/

/-- The method `get_line_style()`, with `line_style` the value of
`this.model.get("line_style")`: a `switch` with three cases and no `default`.
`Except.ok (some p)` is a returned dash pattern `p`, `Except.ok none` is the
value `undefined` returned when no case matches, and `Except.error` would be
a thrown error; the body has no `throw`. -/
def get_line_style (line_style : String) : Except String (Option String) :=
  if line_style = "solid" then Except.ok (some "none")
  else if line_style = "dashed" then Except.ok (some "10,10")
  else if line_style = "dotted" then Except.ok (some "2,10")
  else Except.ok none

/-! ## Scenarios -/

/-- Scenario B: a single curve with `x = [0,1,2,3,4]`. -/
def scenarioB : Model :=
  { x_data := XData.flat [0, 1, 2, 3, 4], mark_data := [], idx_selected := none,
    curves_subset := [], labels_visibility := "none", touches := 0 }

/-- Two curves, `a` with points at x = 0, 1 and `b` with one point at x = 5,
and a selection holding an index and one entry for each of the lassos `L1`
and `L2`. -/
def lassoModel : Model :=
  { x_data := XData.flat [0, 1],
    mark_data := [{ name := "a", values := [⟨0, some 0⟩, ⟨1, some 1⟩], opacity := none },
                  { name := "b", values := [⟨5, some 5⟩], opacity := none }],
    idx_selected := some [SelElem.idx 3, SelElem.entry "a" "L1" [0], SelElem.entry "b" "L2" [0]],
    curves_subset := [], labels_visibility := "none", touches := 0 }

/-- A y scale for the scenarios: the identity, with `null` sent to `0`. -/
def y_id (y : Option ℚ) : ℚ := y.getD 0

/-- A point-in-polygon test for the scenarios: the pixel's x coordinate is
at most `1` (the vertices are not inspected). -/
def left_of_one (point : ℚ × ℚ) (_vertices : List (ℚ × ℚ)) : Bool :=
  decide (point.1 ≤ 1)

/-- A one-vertex lasso for the scenarios. -/
def oneVertex : List (ℚ × ℚ) := [(0, 0)]

/-- A model whose x sequence is empty and whose selection is `null`. -/
def emptyModel : Model :=
  { x_data := XData.flat [], mark_data := [], idx_selected := none,
    curves_subset := [], labels_visibility := "none", touches := 0 }

/-- A model with x values `[10, 20, 30]`, for the brush scenarios. -/
def rangeModel : Model :=
  { x_data := XData.flat [10, 20, 30], mark_data := [], idx_selected := none,
    curves_subset := [], labels_visibility := "none", touches := 0 }

/-- A date formatter for the brush scenarios. -/
def isoDay (_v : ℚ) : String := "2015-01-01"

/-- The selector's state before the brush scenarios. -/
def selector0 : Selector := { idx_selected := [], touches := 0 }

/-- Scenario A: three curves named `a`, `b`, `c`, each of opacity `1`. -/
def scenarioA : List Curve :=
  [{ name := "a", values := [⟨0, some 0⟩], opacity := some 1 },
   { name := "b", values := [⟨0, some 1⟩], opacity := some 1 },
   { name := "c", values := [⟨0, some 2⟩], opacity := some 1 }]

/-- Scenario A's view once `draw` and `draw_legend` have run. -/
def viewA : View :=
  { paths := drawn_paths scenarioA, legend := drawn_legend scenarioA }

/-- Two curves `a` and `b` with the singleton visibility subset `[0]`. -/
def subsetModel : Model :=
  { x_data := XData.flat [0, 1],
    mark_data := [{ name := "a", values := [⟨0, some 0⟩, ⟨1, some 1⟩], opacity := none },
                  { name := "b", values := [⟨0, some 1⟩, ⟨1, some 0⟩], opacity := none }],
    idx_selected := none, curves_subset := [0], labels_visibility := "none", touches := 0 }

/-! ## Facts about `bisect` -/

theorem bisectLoop_between (data : List ℚ) (x : ℚ) :
    ∀ (fuel lo hi : Nat), lo ≤ hi →
      lo ≤ bisectLoop data x fuel lo hi ∧ bisectLoop data x fuel lo hi ≤ hi := by
  intro fuel
  induction fuel with
  | zero => intro lo hi h; simp [bisectLoop, h]
  | succ n ih =>
    intro lo hi h
    unfold bisectLoop
    by_cases hlt : lo < hi
    · have hmid : lo ≤ (lo + hi) / 2 ∧ (lo + hi) / 2 < hi := by omega
      simp only [hlt, if_true]
      cases hd : data[(lo + hi) / 2]? with
      | none =>
        have := ih lo ((lo + hi) / 2) hmid.1
        simp only []
        omega
      | some d =>
        simp only []
        by_cases hdx : d < x
        · have := ih ((lo + hi) / 2 + 1) hi (by omega)
          simp only [hdx, if_true]
          omega
        · have := ih lo ((lo + hi) / 2) hmid.1
          simp only [hdx, if_false]
          omega
    · simp [hlt, h]

theorem bisect_bounds (data : List ℚ) (x : ℚ) :
    0 ≤ bisect data x ∧ bisect data x ≤ (data.length : Int) := by
  have h := bisectLoop_between data x data.length 0 data.length (Nat.zero_le _)
  unfold bisect
  omega

theorem sorted_lookup_le {data : List ℚ} (hs : data.Sorted (· ≤ ·)) {i j : Nat} {di dj : ℚ}
    (hij : i ≤ j) (hi : data[i]? = some di) (hj : data[j]? = some dj) : di ≤ dj := by
  rcases Nat.eq_or_lt_of_le hij with rfl | hlt
  · rw [hi] at hj
    exact le_of_eq (Option.some.inj hj)
  · obtain ⟨hi1, rfl⟩ := List.getElem?_eq_some.1 hi
    obtain ⟨hj1, rfl⟩ := List.getElem?_eq_some.1 hj
    exact (List.pairwise_iff_getElem.1 hs) i j hi1 hj1 hlt

/-- The loop invariant of the binary search on ascending data: everything
left of the result is smaller than `x`, everything from the result on is at
least `x`. -/
theorem bisectLoop_partition {data : List ℚ} (hs : data.Sorted (· ≤ ·)) (x : ℚ) :
    ∀ (fuel lo hi : Nat), lo ≤ hi → hi ≤ data.length → hi - lo ≤ fuel →
      (∀ i d, i < lo → data[i]? = some d → d < x) →
      (∀ i d, hi ≤ i → data[i]? = some d → x ≤ d) →
      (∀ i d, i < bisectLoop data x fuel lo hi → data[i]? = some d → d < x) ∧
      (∀ i d, bisectLoop data x fuel lo hi ≤ i → data[i]? = some d → x ≤ d) := by
  intro fuel
  induction fuel with
  | zero =>
    intro lo hi h1 _ h3 hL hR
    have : lo = hi := by omega
    subst this
    simp only [bisectLoop]
    exact ⟨hL, hR⟩
  | succ n ih =>
    intro lo hi h1 h2 h3 hL hR
    unfold bisectLoop
    by_cases hlt : lo < hi
    · have hmid : lo ≤ (lo + hi) / 2 ∧ (lo + hi) / 2 < hi := by omega
      simp only [hlt, if_true]
      have hlen : (lo + hi) / 2 < data.length := by omega
      have hget : data[(lo + hi) / 2]? = some (data[(lo + hi) / 2]) :=
        List.getElem?_eq_getElem hlen
      rw [hget]
      simp only []
      by_cases hdx : data[(lo + hi) / 2] < x
      · simp only [hdx, if_true]
        refine ih ((lo + hi) / 2 + 1) hi (by omega) h2 (by omega) ?_ hR
        intro i d hi1 hd
        exact lt_of_le_of_lt (sorted_lookup_le hs (by omega) hd hget) hdx
      · simp only [hdx, if_false]
        refine ih lo ((lo + hi) / 2) hmid.1 (by omega) (by omega) hL ?_
        intro i d hi1 hd
        exact le_trans (not_lt.1 hdx) (sorted_lookup_le hs hi1 hget hd)
    · have : lo = hi := by omega
      subst this
      simp only [hlt, if_false]
      exact ⟨hL, hR⟩

/-- On ascending data `bisect` returns the leftmost insertion index. -/
theorem bisect_partition {data : List ℚ} (hs : data.Sorted (· ≤ ·)) (x : ℚ) :
    ∃ r : Nat, bisect data x = (r : Int) ∧ r ≤ data.length ∧
      (∀ i d, i < r → data[i]? = some d → d < x) ∧
      (∀ i d, r ≤ i → data[i]? = some d → x ≤ d) := by
  refine ⟨bisectLoop data x data.length 0 data.length, rfl,
    (bisectLoop_between data x data.length 0 data.length (Nat.zero_le _)).2, ?_⟩
  refine bisectLoop_partition hs x data.length 0 data.length (Nat.zero_le _) le_rfl
    (by omega) ?_ ?_
  · intro i d hi; omega
  · intro i d hi hd
    have := (List.getElem?_eq_some.1 hd).1
    omega

/-- On ascending data `bisect` is monotone in the searched value. -/
theorem bisect_mono {data : List ℚ} (hs : data.Sorted (· ≤ ·)) {x y : ℚ} (hxy : x ≤ y) :
    bisect data x ≤ bisect data y := by
  obtain ⟨r, hr, hrl, hrL, _⟩ := bisect_partition hs x
  obtain ⟨t, ht, _, _, htR⟩ := bisect_partition hs y
  rw [hr, ht]
  by_contra hcon
  have hlt : t < r := by omega
  have hlen : t < data.length := by omega
  have hget : data[t]? = some (data[t]) := List.getElem?_eq_getElem hlen
  have h1 := hrL t _ hlt hget
  have h2 := htR t _ le_rfl hget
  exact absurd (lt_of_le_of_lt (le_trans hxy h2) h1) (lt_irrefl _)

/-! ## Point and range inversion: results -/

theorem data_length_pos {data : List ℚ} (hne : data ≠ []) : (1 : Int) ≤ (data.length : Int) := by
  have := List.length_pos.2 hne
  omega

/-- C1: for a non-empty x sequence and any pixel, whatever insertion index
in `[0, data.length]` the bisect search yields, `invert_point` returns an
index between `0` and `data.length - 1` and writes it as the single element
of `idx_selected`. -/
theorem invert_point_index_in_bounds (invert : ℚ → ℚ) (bis : List ℚ → ℚ → Int)
    (m : Model) (pixel : ℚ) (hne : m.x_data.data ≠ [])
    (hb : 0 ≤ bis m.x_data.data (invert pixel) ∧
      bis m.x_data.data (invert pixel) ≤ (m.x_data.data.length : Int)) :
    0 ≤ (invert_point invert bis m pixel).1 ∧
    (invert_point invert bis m pixel).1 ≤ (m.x_data.data.length : Int) - 1 ∧
    (invert_point invert bis m pixel).2.idx_selected =
      some [SelElem.idx (invert_point invert bis m pixel).1] := by
  have hlen := data_length_pos hne
  refine ⟨?_, ?_, rfl⟩
  · show 0 ≤ min (bis m.x_data.data (invert pixel)) (max ((m.x_data.data.length : Int) - 1) 0)
    exact le_min hb.1 (le_max_right _ _)
  · show min (bis m.x_data.data (invert pixel)) (max ((m.x_data.data.length : Int) - 1) 0) ≤ _
    exact le_trans (min_le_right _ _) (max_le le_rfl (by omega))

/-- Witness for C1 on Scenario B's data with a pixel far right of the
plotted range: the index is clamped to the last position `4`. -/
theorem invert_point_index_in_bounds_witness :
    (invert_point (linear_invert 0 4 0 100) bisect scenarioB 500).1 = 4 ∧
    0 ≤ (invert_point (linear_invert 0 4 0 100) bisect scenarioB 500).1 ∧
    (invert_point (linear_invert 0 4 0 100) bisect scenarioB 500).1 ≤
      (scenarioB.x_data.data.length : Int) - 1 ∧
    (invert_point (linear_invert 0 4 0 100) bisect scenarioB 500).2.idx_selected =
      some [SelElem.idx (invert_point (linear_invert 0 4 0 100) bisect scenarioB 500).1] :=
  ⟨by simp [invert_point, linear_invert, bisect, bisectLoop, scenarioB, XData.data]; norm_num,
   invert_point_index_in_bounds (linear_invert 0 4 0 100) bisect scenarioB 500
    (by simp [scenarioB, XData.data]) (bisect_bounds _ _)⟩

/-- C2: for a non-empty ascending x sequence, an order-preserving inverse x
scale and pixels `a ≤ b`, `invert_range a b` returns and writes a pair
`[i, j]` with `i ≤ j`, both between `0` and `data.length - 1`, and `i = j`
when `a = b`. -/
theorem invert_range_ordered (invert : ℚ → ℚ) (hmono : Monotone invert) (m : Model)
    (a b : ℚ) (hne : m.x_data.data ≠ []) (hs : m.x_data.data.Sorted (· ≤ ·))
    (hab : a ≤ b) :
    ∃ i j : Int, (invert_range invert bisect m a b).1 = [i, j] ∧
      (invert_range invert bisect m a b).2.idx_selected = some [SelElem.idx i, SelElem.idx j] ∧
      i ≤ j ∧ 0 ≤ i ∧ i ≤ (m.x_data.data.length : Int) - 1 ∧
      0 ≤ j ∧ j ≤ (m.x_data.data.length : Int) - 1 ∧ (a = b → i = j) := by
  have hlen := data_length_pos hne
  have hmax : max ((m.x_data.data.length : Int) - 1) 0 = (m.x_data.data.length : Int) - 1 :=
    max_eq_left (by omega)
  refine ⟨_, _, rfl, rfl, ?_, ?_, ?_, ?_, ?_, ?_⟩
  · exact min_le_min (bisect_mono hs (hmono hab)) le_rfl
  · exact le_min (bisect_bounds _ _).1 (le_max_right _ _)
  · rw [hmax]; exact min_le_right _ _
  · exact le_min (bisect_bounds _ _).1 (le_max_right _ _)
  · rw [hmax]; exact min_le_right _ _
  · intro h; rw [h]

/-- Witness for C2 on Scenario B's data: pixels `25 ≤ 500` give `[1, 4]`. -/
theorem invert_range_ordered_witness :
    (invert_range (linear_invert 0 4 0 100) bisect scenarioB 25 500).1 = [1, 4] ∧
    ∃ i j : Int, (invert_range (linear_invert 0 4 0 100) bisect scenarioB 25 500).1 = [i, j] ∧
      (invert_range (linear_invert 0 4 0 100) bisect scenarioB 25 500).2.idx_selected =
        some [SelElem.idx i, SelElem.idx j] ∧
      i ≤ j ∧ 0 ≤ i ∧ i ≤ (scenarioB.x_data.data.length : Int) - 1 ∧
      0 ≤ j ∧ j ≤ (scenarioB.x_data.data.length : Int) - 1 ∧ ((25 : ℚ) = 500 → i = j) :=
  ⟨by simp [invert_range, linear_invert, bisect, bisectLoop, scenarioB, XData.data]; norm_num,
   invert_range_ordered (linear_invert 0 4 0 100)
    (by
      intro p q hpq
      simp only [linear_invert]
      have : (p - 0) / (100 - 0) ≤ (q - 0) / (100 - 0) :=
        div_le_div_of_nonneg_right (sub_le_sub_right hpq 0) (by norm_num)
      nlinarith)
    scenarioB 25 500 (by simp [scenarioB, XData.data])
    (by simp [scenarioB, XData.data, List.Sorted]; norm_num) (by norm_num)⟩

/-- C6: for a non-empty ascending x sequence and any pixel, with
`v = invert pixel`, the index returned by `invert_point` is a position `i`
of `data` such that, when some element is at least `v`, `data[i]` is the
first such element (it is at least `v` and every earlier element is below
`v`), and when no element is at least `v`, `i` is the last position. -/
theorem invert_point_first_at_least (invert : ℚ → ℚ) (m : Model) (pixel : ℚ)
    (hne : m.x_data.data ≠ []) (hs : m.x_data.data.Sorted (· ≤ ·)) :
    ∃ i : Nat, (invert_point invert bisect m pixel).1 = (i : Int) ∧
      i < m.x_data.data.length ∧
      ((∃ d ∈ m.x_data.data, invert pixel ≤ d) →
        (∃ d, m.x_data.data[i]? = some d ∧ invert pixel ≤ d) ∧
        ∀ j d, j < i → m.x_data.data[j]? = some d → d < invert pixel) ∧
      ((∀ d ∈ m.x_data.data, d < invert pixel) → i = m.x_data.data.length - 1) := by
  have hlen := data_length_pos hne
  obtain ⟨r, hr, hrl, hrL, hrR⟩ := bisect_partition hs (invert pixel)
  have hidx : (invert_point invert bisect m pixel).1 =
      min (bisect m.x_data.data (invert pixel)) (max ((m.x_data.data.length : Int) - 1) 0) := rfl
  have hmax : max ((m.x_data.data.length : Int) - 1) 0 = (m.x_data.data.length : Int) - 1 :=
    max_eq_left (by omega)
  rw [hmax, hr] at hidx
  rcases Nat.lt_or_ge r m.x_data.data.length with hlt | hge
  · have hget : m.x_data.data[r]? = some (m.x_data.data[r]) := List.getElem?_eq_getElem hlt
    refine ⟨r, ?_, hlt, ?_, ?_⟩
    · rw [hidx]; exact min_eq_left (by omega)
    · intro _
      exact ⟨⟨_, hget, hrR r _ le_rfl hget⟩, hrL⟩
    · intro hall
      have h1 := hall _ (List.getElem_mem hlt)
      have h2 := hrR r _ le_rfl hget
      exact absurd (lt_of_le_of_lt h2 h1) (lt_irrefl _)
  · have hrlen : r = m.x_data.data.length := le_antisymm hrl hge
    refine ⟨m.x_data.data.length - 1, ?_, by omega, ?_, ?_⟩
    · rw [hidx, hrlen]
      rw [min_eq_right (by omega)]
      omega
    · rintro ⟨d, hd, hvd⟩
      obtain ⟨k, hk, rfl⟩ := List.getElem_of_mem hd
      have h1 := hrL k _ (by omega) (List.getElem?_eq_getElem hk)
      exact absurd (lt_of_le_of_lt hvd h1) (lt_irrefl _)
    · intro _; rfl

/-- Witness for C6, Scenario B: with `x = [0,1,2,3,4]` and a linear x scale
of domain `[0, 4]` and pixel range `[0, 100]`, `invert_point 50` returns
index `2`. -/
theorem invert_point_first_at_least_witness :
    (invert_point (linear_invert 0 4 0 100) bisect scenarioB 50).1 = 2 ∧
    ∃ i : Nat, (invert_point (linear_invert 0 4 0 100) bisect scenarioB 50).1 = (i : Int) ∧
      i < scenarioB.x_data.data.length ∧
      ((∃ d ∈ scenarioB.x_data.data, linear_invert 0 4 0 100 50 ≤ d) →
        (∃ d, scenarioB.x_data.data[i]? = some d ∧ linear_invert 0 4 0 100 50 ≤ d) ∧
        ∀ j d, j < i → scenarioB.x_data.data[j]? = some d → d < linear_invert 0 4 0 100 50) ∧
      ((∀ d ∈ scenarioB.x_data.data, d < linear_invert 0 4 0 100 50) →
        i = scenarioB.x_data.data.length - 1) :=
  ⟨by simp [invert_point, linear_invert, bisect, bisectLoop, scenarioB, XData.data]; norm_num,
   invert_point_first_at_least (linear_invert 0 4 0 100) scenarioB 50
    (by simp [scenarioB, XData.data])
    (by simp [scenarioB, XData.data, List.Sorted]; norm_num)⟩

/-! ## Lasso selection: results -/

theorem mem_idx_in_lasso (x_scale : ℚ → ℚ) (y_scale : Option ℚ → ℚ) (vs : List (ℚ × ℚ))
    (test : ℚ × ℚ → List (ℚ × ℚ) → Bool) (c : Curve) (i : Nat) :
    i ∈ idx_in_lasso x_scale y_scale vs test c ↔
      ∃ p, c.values[i]? = some p ∧ in_lasso x_scale y_scale vs test p = true := by
  unfold idx_in_lasso in_lasso
  rw [List.mem_filter, List.mem_range]
  constructor
  · rintro ⟨hi, h⟩
    rw [List.getElem?_eq_getElem hi] at h
    exact ⟨_, List.getElem?_eq_getElem hi, h⟩
  · rintro ⟨p, hp, h⟩
    refine ⟨(List.getElem?_eq_some.1 hp).1, ?_⟩
    rw [hp]
    exact h

theorem idx_in_lasso_sorted (x_scale : ℚ → ℚ) (y_scale : Option ℚ → ℚ) (vs : List (ℚ × ℚ))
    (test : ℚ × ℚ → List (ℚ × ℚ) → Bool) (c : Curve) :
    (idx_in_lasso x_scale y_scale vs test c).Sorted (· < ·) :=
  List.Pairwise.filter _ (List.sorted_lt_range _)

theorem idx_in_lasso_pos_iff (x_scale : ℚ → ℚ) (y_scale : Option ℚ → ℚ) (vs : List (ℚ × ℚ))
    (test : ℚ × ℚ → List (ℚ × ℚ) → Bool) (c : Curve) :
    (idx_in_lasso x_scale y_scale vs test c).length > 0 ↔
      c.values.any (in_lasso x_scale y_scale vs test) = true := by
  rw [gt_iff_lt, List.length_pos_iff_exists_mem, List.any_eq_true]
  constructor
  · rintro ⟨i, hi⟩
    obtain ⟨p, hp, h⟩ := (mem_idx_in_lasso x_scale y_scale vs test c i).1 hi
    obtain ⟨hlt, rfl⟩ := List.getElem?_eq_some.1 hp
    exact ⟨_, List.getElem_mem hlt, h⟩
  · rintro ⟨p, hp, h⟩
    obtain ⟨i, hi, rfl⟩ := List.getElem_of_mem hp
    exact ⟨i, (mem_idx_in_lasso x_scale y_scale vs test c i).2
      ⟨_, List.getElem?_eq_getElem hi, h⟩⟩

/-- The loop over `mark_data`: the entries pushed are those of the curves
with a point in the lasso, in curve order, and the flag is raised exactly
when there is such a curve. -/
theorem lasso_fold (x_scale : ℚ → ℚ) (y_scale : Option ℚ → ℚ) (lasso_name : String)
    (vs : List (ℚ × ℚ)) (test : ℚ × ℚ → List (ℚ × ℚ) → Bool) :
    ∀ (md : List Curve) (acc : List SelElem) (flag : Bool),
      md.foldl (lasso_step x_scale y_scale lasso_name vs test) (acc, flag) =
        (acc ++ (md.filter fun c => c.values.any (in_lasso x_scale y_scale vs test)).map
            (fun c => SelElem.entry c.name lasso_name (idx_in_lasso x_scale y_scale vs test c)),
         flag || md.any fun c => c.values.any (in_lasso x_scale y_scale vs test)) := by
  intro md
  induction md with
  | nil => intro acc flag; simp
  | cons c cs ih =>
    intro acc flag
    rw [List.foldl_cons]
    have hstep : lasso_step x_scale y_scale lasso_name vs test (acc, flag) c =
        if (idx_in_lasso x_scale y_scale vs test c).length > 0 then
          (acc ++ [SelElem.entry c.name lasso_name (idx_in_lasso x_scale y_scale vs test c)], true)
        else (acc, flag) := rfl
    rw [hstep]
    by_cases h : c.values.any (in_lasso x_scale y_scale vs test) = true
    · rw [if_pos ((idx_in_lasso_pos_iff x_scale y_scale vs test c).2 h), ih]
      simp [h]
    · rw [if_neg (fun hp => h ((idx_in_lasso_pos_iff x_scale y_scale vs test c).1 hp)), ih]
      simp [h]

theorem prev_selection (idx : Option (List SelElem)) :
    (match idx with
      | some a => a
      | none => []) = idx.getD [] := by
  cases idx <;> rfl

theorem lasso_add_result (x_scale : ℚ → ℚ) (y_scale : Option ℚ → ℚ) (m : Model)
    (lasso_name : String) (vs : List (ℚ × ℚ)) (test : ℚ × ℚ → List (ℚ × ℚ) → Bool)
    (hvs : vs ≠ []) :
    update_idx_selected_in_lasso x_scale y_scale m lasso_name (some vs) test =
      (m.mark_data.any (fun c => c.values.any (in_lasso x_scale y_scale vs test)),
       { m with
         idx_selected := some (m.idx_selected.getD [] ++
           (m.mark_data.filter fun c => c.values.any (in_lasso x_scale y_scale vs test)).map
             (fun c => SelElem.entry c.name lasso_name (idx_in_lasso x_scale y_scale vs test c))),
         touches := m.touches + 1 }) := by
  have hpos : vs.length > 0 := List.length_pos.2 hvs
  simp only [update_idx_selected_in_lasso, hpos, if_true, lasso_fold, prev_selection,
    Bool.false_or]

theorem lasso_removal_result (x_scale : ℚ → ℚ) (y_scale : Option ℚ → ℚ) (m : Model)
    (lasso_name : String) (lv : Option (List (ℚ × ℚ))) (test : ℚ × ℚ → List (ℚ × ℚ) → Bool)
    (h : lv = none ∨ lv = some []) :
    update_idx_selected_in_lasso x_scale y_scale m lasso_name lv test =
      (false,
       { m with
         idx_selected := some ((m.idx_selected.getD []).filter fun e =>
           e.lasso_name ≠ some lasso_name),
         touches := m.touches + 1 }) := by
  rcases h with rfl | rfl <;>
    simp [update_idx_selected_in_lasso, prev_selection]

/-- C4: when `lasso_vertices` is `null` or empty, the call returns `false`
and sets `idx_selected` to the previous collection without the entries whose
`lasso_name` is the given id: the result is a sublist of the previous
collection (nothing added, order kept), every element with another
`lasso_name` occurs as often as before, and no entry with that id is left. -/
theorem lasso_removal (x_scale : ℚ → ℚ) (y_scale : Option ℚ → ℚ) (m : Model)
    (lasso_name : String) (lv : Option (List (ℚ × ℚ))) (test : ℚ × ℚ → List (ℚ × ℚ) → Bool)
    (h : lv = none ∨ lv = some []) :
    (update_idx_selected_in_lasso x_scale y_scale m lasso_name lv test).1 = false ∧
    ∃ kept, (update_idx_selected_in_lasso x_scale y_scale m lasso_name lv test).2.idx_selected
        = some kept ∧
      kept = (m.idx_selected.getD []).filter (fun e => e.lasso_name ≠ some lasso_name) ∧
      kept.Sublist (m.idx_selected.getD []) ∧
      (∀ e, e.lasso_name ≠ some lasso_name → kept.count e = (m.idx_selected.getD []).count e) ∧
      (∀ e ∈ kept, e.lasso_name ≠ some lasso_name) := by
  rw [lasso_removal_result x_scale y_scale m lasso_name lv test h]
  refine ⟨rfl, _, rfl, rfl, List.filter_sublist _, ?_, ?_⟩
  · intro e he
    rw [List.count_filter]
    simpa using he
  · intro e he
    simpa using (List.mem_filter.1 he).2

/-- Witness for C4: removing lasso `L1` from the scenario selection keeps the
index and the `L2` entry. -/
theorem lasso_removal_witness :
    (update_idx_selected_in_lasso id y_id lassoModel "L1" (some []) left_of_one).2.idx_selected
      = some [SelElem.idx 3, SelElem.entry "b" "L2" [0]] ∧
    ((update_idx_selected_in_lasso id y_id lassoModel "L1" (some []) left_of_one).1 = false ∧
    ∃ kept, (update_idx_selected_in_lasso id y_id lassoModel "L1" (some []) left_of_one).2.idx_selected
        = some kept ∧
      kept = (lassoModel.idx_selected.getD []).filter (fun e => e.lasso_name ≠ some "L1") ∧
      kept.Sublist (lassoModel.idx_selected.getD []) ∧
      (∀ e, e.lasso_name ≠ some "L1" → kept.count e = (lassoModel.idx_selected.getD []).count e) ∧
      (∀ e ∈ kept, e.lasso_name ≠ some "L1")) :=
  ⟨by decide, lasso_removal id y_id lassoModel "L1" (some []) left_of_one (Or.inr rfl)⟩

/-- C5: when `lasso_vertices` is non-empty, the call sets `idx_selected` to
the previous collection followed by one entry `{line_name, lasso_name,
indices}` per curve, in curve order, for exactly the curves with at least
one point whose projected position satisfies the test; the entry's indices
are the ascending positions of the curve's points satisfying the test; and
the call returns `true` exactly when some point of some curve satisfies the
test. -/
theorem lasso_add (x_scale : ℚ → ℚ) (y_scale : Option ℚ → ℚ) (m : Model)
    (lasso_name : String) (vs : List (ℚ × ℚ)) (test : ℚ × ℚ → List (ℚ × ℚ) → Bool)
    (hvs : vs ≠ []) :
    (∃ added, (update_idx_selected_in_lasso x_scale y_scale m lasso_name (some vs) test).2.idx_selected
        = some (m.idx_selected.getD [] ++ added) ∧
      List.Forall₂
        (fun c e => ∃ indices, e = SelElem.entry c.name lasso_name indices ∧
          indices.Sorted (· < ·) ∧
          ∀ i, i ∈ indices ↔
            ∃ p, c.values[i]? = some p ∧ in_lasso x_scale y_scale vs test p = true)
        (m.mark_data.filter fun c => c.values.any (in_lasso x_scale y_scale vs test))
        added) ∧
    ((update_idx_selected_in_lasso x_scale y_scale m lasso_name (some vs) test).1 = true ↔
      ∃ c ∈ m.mark_data, ∃ p ∈ c.values, in_lasso x_scale y_scale vs test p = true) := by
  rw [lasso_add_result x_scale y_scale m lasso_name vs test hvs]
  refine ⟨⟨_, rfl, ?_⟩, ?_⟩
  · rw [List.forall₂_map_right_iff, List.forall₂_same]
    intro c _
    exact ⟨_, rfl, idx_in_lasso_sorted x_scale y_scale vs test c,
      mem_idx_in_lasso x_scale y_scale vs test c⟩
  · simp only [List.any_eq_true]

/-- Witness for C5: a lasso `L3` that catches the two points of curve `a`
and no point of curve `b` appends one entry for `a` and returns `true`. -/
theorem lasso_add_witness :
    update_idx_selected_in_lasso id y_id lassoModel "L3" (some oneVertex) left_of_one =
      (true, { lassoModel with
        idx_selected := some [SelElem.idx 3, SelElem.entry "a" "L1" [0],
          SelElem.entry "b" "L2" [0], SelElem.entry "a" "L3" [0, 1]],
        touches := 1 }) ∧
    ((∃ added, (update_idx_selected_in_lasso id y_id lassoModel "L3" (some oneVertex)
          left_of_one).2.idx_selected = some (lassoModel.idx_selected.getD [] ++ added) ∧
      List.Forall₂
        (fun c e => ∃ indices, e = SelElem.entry c.name "L3" indices ∧
          indices.Sorted (· < ·) ∧
          ∀ i, i ∈ indices ↔
            ∃ p, c.values[i]? = some p ∧ in_lasso id y_id oneVertex left_of_one p = true)
        (lassoModel.mark_data.filter fun c => c.values.any (in_lasso id y_id oneVertex left_of_one))
        added) ∧
    ((update_idx_selected_in_lasso id y_id lassoModel "L3" (some oneVertex) left_of_one).1 = true ↔
      ∃ c ∈ lassoModel.mark_data, ∃ p ∈ c.values,
        in_lasso id y_id oneVertex left_of_one p = true)) :=
  ⟨by decide, lasso_add id y_id lassoModel "L3" oneVertex left_of_one (by decide)⟩

/-- C3, counterexample to the claim as written: the scenario selection
already holds an entry of lasso `L1`; adding lasso `L1` and then removing it
also removes that earlier entry, so the selection is not restored. -/
theorem lasso_round_trip_fails :
    (update_idx_selected_in_lasso id y_id
        (update_idx_selected_in_lasso id y_id lassoModel "L1" (some oneVertex) left_of_one).2
        "L1" (some []) left_of_one).2.idx_selected
      = some [SelElem.idx 3, SelElem.entry "b" "L2" [0]] ∧
    (update_idx_selected_in_lasso id y_id
        (update_idx_selected_in_lasso id y_id lassoModel "L1" (some oneVertex) left_of_one).2
        "L1" (some []) left_of_one).2.idx_selected
      ≠ lassoModel.idx_selected := by
  decide

/-- C3, amended: when the selection state holds no entry whose `lasso_name`
is the given id, adding a lasso with a non-empty vertex list and then
removing it leaves `idx_selected` equal to the array of the state before the
first call (the empty array when the attribute was `null`). -/
theorem lasso_round_trip (x_scale : ℚ → ℚ) (y_scale : Option ℚ → ℚ) (m : Model)
    (lasso_name : String) (vs : List (ℚ × ℚ)) (test : ℚ × ℚ → List (ℚ × ℚ) → Bool)
    (hvs : vs ≠ [])
    (hS : ∀ e ∈ m.idx_selected.getD [], e.lasso_name ≠ some lasso_name) :
    (update_idx_selected_in_lasso x_scale y_scale
        (update_idx_selected_in_lasso x_scale y_scale m lasso_name (some vs) test).2
        lasso_name (some []) test).2.idx_selected
      = some (m.idx_selected.getD []) := by
  rw [lasso_add_result x_scale y_scale m lasso_name vs test hvs,
    lasso_removal_result x_scale y_scale _ lasso_name (some []) test (Or.inr rfl)]
  simp only [Option.getD_some, List.filter_append, Option.some.injEq]
  have h1 : (m.idx_selected.getD []).filter (fun e => e.lasso_name ≠ some lasso_name)
      = m.idx_selected.getD [] :=
    List.filter_eq_self.2 (fun e he => by simpa using hS e he)
  have h2 : ((m.mark_data.filter fun c => c.values.any (in_lasso x_scale y_scale vs test)).map
      (fun c => SelElem.entry c.name lasso_name (idx_in_lasso x_scale y_scale vs test c))).filter
        (fun e => e.lasso_name ≠ some lasso_name) = [] := by
    rw [List.filter_eq_nil_iff]
    intro e he
    obtain ⟨c, _, rfl⟩ := List.mem_map.1 he
    simp [SelElem.lasso_name]
  rw [h1, h2, List.append_nil]

/-- Witness for the amended C3: the scenario selection holds no entry of
lasso `L3`, and the round trip with `L3` restores it. -/
theorem lasso_round_trip_witness :
    (update_idx_selected_in_lasso id y_id
        (update_idx_selected_in_lasso id y_id lassoModel "L3" (some oneVertex) left_of_one).2
        "L3" (some []) left_of_one).2.idx_selected
      = some (lassoModel.idx_selected.getD []) :=
  lasso_round_trip id y_id lassoModel "L3" oneVertex left_of_one (by decide) (by decide)

/-! ## Empty x sequence -/

/-- C7, counterexample to the claim as written: on an empty x sequence with
a `null` selection, `invert_point` writes `[0]` and `invert_range` writes
`[0, 0]`, so the selection does change. -/
theorem invert_empty_changes_selection :
    (invert_point id bisect emptyModel 7).2.idx_selected = some [SelElem.idx 0] ∧
    (invert_point id bisect emptyModel 7).2.idx_selected ≠ emptyModel.idx_selected ∧
    (invert_range id bisect emptyModel 7 9).2.idx_selected
      = some [SelElem.idx 0, SelElem.idx 0] ∧
    (invert_range id bisect emptyModel 7 9).2.idx_selected ≠ emptyModel.idx_selected := by
  decide

/-- C7, amended: when the x sequence is empty, for every pixel input and
whatever index in `[0, data.length]` the bisect search yields, neither call
fails; `invert_point` returns `0` and sets `idx_selected` to `[0]`, and
`invert_range` returns `[0, 0]` and sets `idx_selected` to `[0, 0]`. -/
theorem invert_empty_clamps_to_zero (invert : ℚ → ℚ) (bis : List ℚ → ℚ → Int) (m : Model)
    (pixel start_pxl end_pxl : ℚ) (hempty : m.x_data.data = [])
    (hb : ∀ v, 0 ≤ bis [] v ∧ bis [] v ≤ (([] : List ℚ).length : Int)) :
    (invert_point invert bis m pixel).1 = 0 ∧
    (invert_point invert bis m pixel).2.idx_selected = some [SelElem.idx 0] ∧
    (invert_range invert bis m start_pxl end_pxl).1 = [0, 0] ∧
    (invert_range invert bis m start_pxl end_pxl).2.idx_selected
      = some [SelElem.idx 0, SelElem.idx 0] := by
  have hz : ∀ v, min (bis [] v) (max (((([] : List ℚ).length : Nat) : Int) - 1) 0) = 0 := by
    intro v
    have h := hb v
    simp only [List.length_nil, Nat.cast_zero] at h ⊢
    rw [max_eq_right (by omega)]
    exact min_eq_right h.1
  simp only [invert_point, invert_range, hempty, hz, List.map_cons, List.map_nil]
  exact ⟨trivial, trivial, trivial, trivial⟩

/-- Witness for the amended C7 on the empty model with the binary search. -/
theorem invert_empty_clamps_to_zero_witness :
    (invert_point id bisect emptyModel 7).1 = 0 ∧
    (invert_point id bisect emptyModel 7).2.idx_selected = some [SelElem.idx 0] ∧
    (invert_range id bisect emptyModel 7 9).1 = [0, 0] ∧
    (invert_range id bisect emptyModel 7 9).2.idx_selected
      = some [SelElem.idx 0, SelElem.idx 0] :=
  invert_empty_clamps_to_zero id bisect emptyModel 7 7 9 rfl (fun v => bisect_bounds [] v)

/-! ## Brush-linked selector: results -/

/-- C8, the code at the failing input: with x values `[10, 20, 30]` and
the brush extent `[15, 25]` the selector receives the indices `[1, 2]`,
which are neither the two formatted dates (date scale) nor the two raw
boundary values (linear scale); with the brush extent `[35, 40]`, right of
the data, it receives `[3, 2]`, whose start index is not a position of the
data. -/
theorem update_multi_range_sets_indices :
    (update_multi_range "date" isoDay bisect rangeModel selector0 (15, 25)).idx_selected
      = [SelVal.num 1, SelVal.num 2] ∧
    (update_multi_range "date" isoDay bisect rangeModel selector0 (15, 25)).idx_selected
      ≠ [SelVal.str (isoDay 15), SelVal.str (isoDay 25)] ∧
    (update_multi_range "linear" isoDay bisect rangeModel selector0 (15, 25)).idx_selected
      = [SelVal.num 1, SelVal.num 2] ∧
    (update_multi_range "linear" isoDay bisect rangeModel selector0 (15, 25)).idx_selected
      ≠ [SelVal.num 15, SelVal.num 25] ∧
    (update_multi_range "date" isoDay bisect rangeModel selector0 (35, 40)).idx_selected
      = [SelVal.num 3, SelVal.num 2] ∧
    (invert_range id bisect rangeModel 35 40).1 = [2, 2] := by
  have h : ∀ ty, (update_multi_range ty isoDay bisect rangeModel selector0 (15, 25)).idx_selected
      = [SelVal.num 1, SelVal.num 2] := by
    intro ty
    simp [update_multi_range, bisect, bisectLoop, rangeModel, XData.data]
    norm_num
  refine ⟨h _, ?_, h _, ?_, ?_, ?_⟩
  · rw [h]; simp
  · rw [h]; simp
  · simp [update_multi_range, bisect, bisectLoop, rangeModel, XData.data]
    norm_num
  · simp [invert_range, bisect, bisectLoop, rangeModel, XData.data]
    norm_num

/-! ## Legend click: results -/

theorem set_lookup_self (md : List Curve) (index : Nat) (c : Curve)
    (hc : md[index]? = some c) : md.set index c = md := by
  have h : index < md.length := (List.getElem?_eq_some.1 hc).1
  apply List.ext_getElem?
  intro j
  by_cases hj : index = j
  · subst hj
    rw [List.getElem?_set_self h, hc]
  · rw [List.getElem?_set_ne hj]

theorem legend_click_result (mark_data : List Curve) (w : View) (index : Nat) (c : Curve)
    (hc : mark_data[index]? = some c) :
    legend_click mark_data w index =
      some (mark_data.set index
              { c with opacity := some (if c.opacity = some 1 then 1 / 10 else 1) },
            (w.style (Sel.legend (index + 1))
              ((if c.opacity = some 1 then 1 / 10 else 1) + 4 / 10)).style
              (Sel.curve (index + 1)) (if c.opacity = some 1 then 1 / 10 else 1)) := by
  simp only [legend_click, hc]

/-- The curve side of `legend_click`: on a curve of opacity `1` the first
click sets the opacity to `0.1` and leaves the other curves as they are, and
a second click gives back the original curve collection. -/
theorem legend_click_curve_toggle (mark_data : List Curve) (w : View) (index : Nat) (c : Curve)
    (hc : mark_data[index]? = some c) (hop : c.opacity = some 1) :
    ∃ md1 w1 w2,
      legend_click mark_data w index = some (md1, w1) ∧
      legend_click md1 w1 index = some (mark_data, w2) ∧
      md1[index]? = some { c with opacity := some (1 / 10) } ∧
      (∀ j, j ≠ index → md1[j]? = mark_data[j]?) := by
  have hlt : index < mark_data.length := (List.getElem?_eq_some.1 hc).1
  have h1 : (mark_data.set index { c with opacity := some (1 / 10) })[index]?
      = some { c with opacity := some (1 / 10) } := by
    rw [List.getElem?_set_self hlt]
  have hc1 : c = { c with opacity := some 1 } := by
    cases c; simp only [Curve.mk.injEq, true_and] at hop ⊢; exact hop
  have hne : ¬ ((1 / 10 : ℚ) = 1) := by norm_num
  refine ⟨mark_data.set index { c with opacity := some (1 / 10) },
    (w.style (Sel.legend (index + 1)) (1 / 10 + 4 / 10)).style (Sel.curve (index + 1)) (1 / 10),
    (((w.style (Sel.legend (index + 1)) (1 / 10 + 4 / 10)).style (Sel.curve (index + 1))
      (1 / 10)).style (Sel.legend (index + 1)) (1 + 4 / 10)).style (Sel.curve (index + 1)) 1,
    ?_, ?_, h1, ?_⟩
  · rw [legend_click_result mark_data w index c hc]
    simp only [hop, if_true]
  · rw [legend_click_result _ _ index _ h1]
    simp only [Option.some.injEq, hne, if_false, List.set_set]
    rw [← hc1, set_lookup_self mark_data index c hc]
  · intro j hj
    exact List.getElem?_set_ne (Ne.symm hj)

theorem style_first_no_id (els : List Elem) (sel : Sel) (v : ℚ)
    (h : ∀ e ∈ els, e.id ≠ some sel) : style_first els sel v = els := by
  induction els with
  | nil => rfl
  | cons e es ih =>
    have he : e.id ≠ some sel := h e (List.mem_cons_self _ _)
    simp only [style_first, he, if_false]
    rw [ih (fun x hx => h x (List.mem_cons_of_mem _ hx))]

/-- A `style` call leaves the legend rows as they are when no row has an
id. -/
theorem style_keeps_legend (w : View) (sel : Sel) (v : ℚ)
    (h : ∀ e ∈ w.legend, e.id = none) : (w.style sel v).legend = w.legend := by
  unfold View.style
  split_ifs
  · rfl
  · exact style_first_no_id w.legend sel v (fun e he => by rw [h e he]; simp)

/-- When no legend row has an id, as is the case after `draw_legend`, no
`legend_click` changes any legend row. -/
theorem legend_click_keeps_legend (mark_data : List Curve) (w : View) (index : Nat)
    (h : ∀ e ∈ w.legend, e.id = none) (md1 : List Curve) (w1 : View)
    (hclick : legend_click mark_data w index = some (md1, w1)) : w1.legend = w.legend := by
  cases hc : mark_data[index]? with
  | none => simp [legend_click, hc] at hclick
  | some c =>
    rw [legend_click_result mark_data w index c hc] at hclick
    simp only [Option.some.injEq, Prod.mk.injEq] at hclick
    rw [← hclick.2, style_keeps_legend _ _ _ (by rw [style_keeps_legend _ _ _ h]; exact h),
      style_keeps_legend _ _ _ h]

theorem drawn_legend_no_id (mark_data : List Curve) :
    ∀ e ∈ drawn_legend mark_data, e.id = none ∧ e.opacity = none := by
  intro e he
  obtain ⟨c, _, rfl⟩ := List.mem_map.1 he
  exact ⟨rfl, rfl⟩

/-- C9, the code at the failing input: Scenario A (curves `a`, `b`, `c` of
opacity `1`) after `draw` and `draw_legend`, with two clicks on the legend
of curve `1`. The first click sets curve `b`'s opacity to `0.1` and the
second restores the curve collection, and the path `#curve2` receives the
opacity `0.1`; but after either click the legend rows are as `draw_legend`
left them, because no row has the id `legend2` the style call selects: the
swatch of curve `b` has no opacity, neither `0.5` nor `1.4`. -/
theorem legend_click_misses_swatch :
    ∃ md1 w1 md2 w2,
      legend_click scenarioA viewA 1 = some (md1, w1) ∧
      legend_click md1 w1 1 = some (md2, w2) ∧
      md1[1]? = some { name := "b", values := [⟨0, some 1⟩], opacity := some (1 / 10) } ∧
      md2 = scenarioA ∧
      w1.paths[1]? = some { id := some (Sel.curve 2), opacity := some (1 / 10) } ∧
      w1.legend = drawn_legend scenarioA ∧
      w2.legend = drawn_legend scenarioA ∧
      w1.legend[1]? = some { id := none, opacity := none } ∧
      w2.legend[1]? = some { id := none, opacity := none } ∧
      (w1.legend[1]?).map Elem.opacity ≠ some (some (1 / 2)) ∧
      (w2.legend[1]?).map Elem.opacity ≠ some (some (7 / 5)) := by
  obtain ⟨md1, w1, w2, h1, h2, h3, _⟩ :=
    legend_click_curve_toggle scenarioA viewA 1
      { name := "b", values := [⟨0, some 1⟩], opacity := some 1 } rfl rfl
  have hA : ∀ e ∈ viewA.legend, e.id = none :=
    fun e he => (drawn_legend_no_id scenarioA e he).1
  have hw1 : w1.legend = drawn_legend scenarioA :=
    legend_click_keeps_legend scenarioA viewA 1 hA md1 w1 h1
  have hw2 : w2.legend = drawn_legend scenarioA := by
    rw [legend_click_keeps_legend md1 w1 1 (by rw [hw1]; exact hA) scenarioA w2 h2, hw1]
  have hrow : (drawn_legend scenarioA)[1]? = some { id := none, opacity := none } := rfl
  have hpath : w1.paths[1]? = some { id := some (Sel.curve 2), opacity := some (1 / 10) } := by
    have h := h1
    rw [legend_click_result scenarioA viewA 1
      { name := "b", values := [⟨0, some 1⟩], opacity := some 1 } rfl] at h
    simp only [Option.some.injEq, Prod.mk.injEq] at h
    rw [← h.2]
    simp [View.style, style_first, viewA, drawn_paths, drawn_legend, scenarioA, List.enum,
      List.enumFrom]
  refine ⟨md1, w1, scenarioA, w2, h1, h2, h3, rfl, hpath, hw1, hw2, ?_, ?_, ?_, ?_⟩
  · rw [hw1, hrow]
  · rw [hw2, hrow]
  · rw [hw1, hrow]; simp
  · rw [hw2, hrow]; simp

/-! ## Curve visibility: results -/

/-- With an empty or singleton subset `update_curves_subset` shows every
curve. -/
theorem update_curves_subset_shows_all (m : Model) (els : List CurveEl)
    (h : m.curves_subset.length ≤ 1) :
    ∀ e ∈ update_curves_subset m els, e.path_display = some "inline" := by
  intro e he
  have hn : ¬ m.curves_subset.length > 1 := by omega
  simp only [update_curves_subset, hn, if_false, List.mem_map] at he
  obtain ⟨a, _, rfl⟩ := he
  rfl

/-- With a subset of two or more indices `update_curves_subset` shows
exactly the listed curve indices. -/
theorem update_curves_subset_shows_listed (m : Model) (els : List CurveEl)
    (h : 1 < m.curves_subset.length) (i : Nat) (e : CurveEl)
    (he : (update_curves_subset m els)[i]? = some e) :
    e.path_display = some (if i ∈ m.curves_subset then "inline" else "none") := by
  simp only [update_curves_subset, gt_iff_lt, h, if_true, List.getElem?_map,
    List.getElem?_enum, Option.map_map] at he
  cases hi : els[i]? with
  | none => rw [hi] at he; simp at he
  | some a =>
    rw [hi] at he
    simp only [Option.map_some', Function.comp_apply, Option.some.injEq] at he
    rw [← he]

/-- C10, the code at the failing input: two curves `a`, `b` drawn into an
empty view with `curves_subset = [0]`. `draw` hides the path of curve `b`,
whereas `update_curves_subset` on the same view shows both paths. -/
theorem draw_singleton_subset_hides :
    (draw subsetModel []).map CurveEl.path_display = [some "inline", some "none"] ∧
    (draw subsetModel []).map CurveEl.shown = ["inline", "none"] ∧
    (update_curves_subset subsetModel (draw subsetModel [])).map CurveEl.shown
      = ["inline", "inline"] := by
  decide

/-! ## Line style: results -/

/-- C11, counterexample to the claim as written: for the unknown line
style `"dash_dotted"` the call does not fail; it returns `undefined`. -/
theorem get_line_style_unknown_returns :
    get_line_style "dash_dotted" = Except.ok none ∧
    ¬ ∃ e, get_line_style "dash_dotted" = Except.error e := by
  have h : get_line_style "dash_dotted" = Except.ok none := by
    simp [get_line_style]
  refine ⟨h, ?_⟩
  rintro ⟨e, he⟩
  rw [h] at he
  cases he

/-- C11, amended: `get_line_style` yields a dash pattern only for `"solid"`
(`"none"`), `"dashed"` (`"10,10"`) and `"dotted"` (`"2,10"`); for every
other `line_style` value it returns `undefined`, and it never raises an
error. -/
theorem get_line_style_closed_enumeration (line_style : String) :
    get_line_style "solid" = Except.ok (some "none") ∧
    get_line_style "dashed" = Except.ok (some "10,10") ∧
    get_line_style "dotted" = Except.ok (some "2,10") ∧
    (∀ p, get_line_style line_style = Except.ok (some p) →
      line_style = "solid" ∨ line_style = "dashed" ∨ line_style = "dotted") ∧
    (line_style ≠ "solid" → line_style ≠ "dashed" → line_style ≠ "dotted" →
      get_line_style line_style = Except.ok none) ∧
    (∀ e, get_line_style line_style ≠ Except.error e) := by
  refine ⟨by simp [get_line_style], by simp [get_line_style], by simp [get_line_style],
    ?_, ?_, ?_⟩
  · intro p hp
    by_cases h1 : line_style = "solid"
    · exact Or.inl h1
    · by_cases h2 : line_style = "dashed"
      · exact Or.inr (Or.inl h2)
      · by_cases h3 : line_style = "dotted"
        · exact Or.inr (Or.inr h3)
        · simp [get_line_style, h1, h2, h3] at hp
  · intro h1 h2 h3
    simp [get_line_style, h1, h2, h3]
  · intro e he
    unfold get_line_style at he
    split_ifs at he

/-- Witness for the amended C11 at the unknown line style `"dash_dotted"`. -/
theorem get_line_style_closed_enumeration_witness :
    get_line_style "dash_dotted" = Except.ok none :=
  (get_line_style_closed_enumeration "dash_dotted").2.2.2.2.1
    (by decide) (by decide) (by decide)

end Lines
